import Mathlib

/-!
Verification of the paginated feed iterator abstraction (QueryIterator) and
the `Users` resource operations of this SDK.

The `Users` class is embedded from `src/unnamed/part_000`.  The QueryIterator
itself is not among the provided source files (only its caller `Users.query`
is), so the iterator is modelled from the specification (sections 3, 4.1, 6
and 7 of the spec), faithful to its words: the iterator state is exactly one
of NotStarted, HasMore(token) or Exhausted; fetchNext issues one Fetch
Executor call unless exhausted; errors are passed through with the state left
unmodified; toArray drains pages and concatenates items, aborting on the
first error.
-/

namespace AzureSDK

/-- Modelled from the spec (§3 Data Model): a Page is an ordered sequence of
result items, response metadata, and an optional continuation token whose
absence signals no more pages.  `T` is the item type and `K` the opaque
token type (the iterator never inspects tokens, so the model is parametric
in `K`). -/
structure Page (T K : Type) where
  items : List T
  nextToken : Option K
  metadata : List (String × String)
  deriving Repr, DecidableEq

/-- Modelled from the spec (§3 Iterator State): exactly one of
NotStarted, HasMore(token), Exhausted. -/
inductive IterState (K : Type) where
  | notStarted : IterState K
  | hasMore (token : K) : IterState K
  | exhausted : IterState K
  deriving Repr, DecidableEq

/-- The continuation token that the next executor call would pass back:
absent when not started (first page) and the stored token otherwise.
`exhausted` never reaches the executor, so its value here is unused. -/
def IterState.requestToken : IterState K → Option K
  | .notStarted => none
  | .hasMore t => some t
  | .exhausted => none

/-- True exactly on the `exhausted` state. -/
def IterState.isDone : IterState K → Bool
  | .exhausted => true
  | _ => false

/-- Modelled from the spec (§3 Fetch Executor contract, §6): given an
optional continuation token, yields either a page or an error. -/
def Executor (T K E : Type) : Type :=
  Option K → Except E (Page T K)

/-- Modelled from the spec (§3, §4.1): the iterator owns its state and
remembers the most recently fetched page (for the current-page accessor). -/
structure QueryIterator (T K : Type) where
  state : IterState K
  lastPage : Option (Page T K)
  deriving Repr, DecidableEq

/-- Modelled from the spec (§4.1 Construction): state initializes to
NotStarted, and nothing has been fetched yet. -/
def freshIterator : QueryIterator T K :=
  ⟨.notStarted, none⟩

/-- The empty page returned without I/O once the iterator is exhausted. -/
def emptyPage : Page T K :=
  ⟨[], none, []⟩

/-- Outcome of one fetchNext call: the page or error handed to the caller,
the iterator afterwards, and how many executor calls were issued. -/
structure FetchResult (T K E : Type) where
  result : Except E (Page T K)
  iterator : QueryIterator T K
  calls : Nat

/-- The successor state after a successful fetch: HasMore(newToken) if a
token was returned, else Exhausted (spec §4.1). -/
def tokenState : Option K → IterState K
  | some t => .hasMore t
  | none => .exhausted

/-- One executor round trip with the given token: on success the state is
replaced according to the returned token and the page is remembered; on
failure the error is propagated and the iterator is left unmodified. -/
def fetchWith (exec : Executor T K E) (it : QueryIterator T K)
    (tok : Option K) : FetchResult T K E :=
  match exec tok with
  | .error e => ⟨.error e, it, 1⟩
  | .ok page => ⟨.ok page, ⟨tokenState page.nextToken, some page⟩, 1⟩

/-- Modelled from the spec (§4.1 fetchNext): if exhausted, return an empty
page immediately with no I/O; otherwise invoke the Fetch Executor with the
current token (absent on the first call). -/
def fetchNext (exec : Executor T K E) (it : QueryIterator T K) :
    FetchResult T K E :=
  match it.state with
  | .exhausted => ⟨.ok emptyPage, it, 0⟩
  | .notStarted => fetchWith exec it none
  | .hasMore t => fetchWith exec it (some t)

/-- The iterator component left behind by one fetchNext call. -/
def stepIter (exec : Executor T K E) (it : QueryIterator T K) :
    QueryIterator T K :=
  (fetchNext exec it).iterator

/-- `n` consecutive fetchNext calls, keeping only the iterator. -/
def stepIterN (exec : Executor T K E) : Nat → QueryIterator T K → QueryIterator T K
  | 0, it => it
  | n + 1, it => stepIterN exec n (stepIter exec it)

/-- Outcome of draining: the concatenated items or the first error, the
iterator afterwards, and the total number of executor calls issued. -/
structure DrainResult (T K E : Type) where
  result : Except E (List T)
  iterator : QueryIterator T K
  calls : Nat

/-- Modelled from the spec (§4.1 toArray): repeatedly fetchNext until
Exhausted, concatenating all items of all pages in order; the first error
aborts the drain and is propagated, discarding accumulated items.  `fuel`
bounds the recursion (the spec notes a misbehaving executor could loop
forever on token cycles); every theorem below supplies sufficient fuel. -/
def toArrayAux (exec : Executor T K E) :
    Nat → QueryIterator T K → List T → DrainResult T K E
  | 0, it, acc => ⟨.ok acc, it, 0⟩
  | fuel + 1, it, acc =>
    if it.state.isDone then ⟨.ok acc, it, 0⟩
    else
      let r := fetchNext exec it
      match r.result with
      | .error e => ⟨.error e, r.iterator, r.calls⟩
      | .ok page =>
        let d := toArrayAux exec fuel r.iterator (acc ++ page.items)
        ⟨d.result, d.iterator, r.calls + d.calls⟩

/-- Modelled from the spec (§4.1): drain the whole sequence starting from an
empty accumulator. -/
def toArray (exec : Executor T K E) (fuel : Nat) (it : QueryIterator T K) :
    DrainResult T K E :=
  toArrayAux exec fuel it []

/-- Modelled from the spec (§4.1 current page accessor, §7 Misuse Error): a
distinct, clearly labeled misuse condition when nothing has been fetched. -/
inductive CurrentPage (T : Type) where
  | items (xs : List T) : CurrentPage T
  | misuseError : CurrentPage T
  deriving Repr, DecidableEq

/-- Modelled from the spec (§4.1): return the most recently fetched page's
items without advancing state; a misuse error if fetchNext has never been
called.  It is a pure accessor: it returns no new iterator, so the state is
unchanged by construction. -/
def currentPage (it : QueryIterator T K) : CurrentPage T :=
  match it.lastPage with
  | none => .misuseError
  | some p => .items p.items

/-! ### Basic lemmas about fetchNext -/

theorem fetchNext_exhausted (exec : Executor T K E) (it : QueryIterator T K)
    (h : it.state = .exhausted) : fetchNext exec it = ⟨.ok emptyPage, it, 0⟩ := by
  simp [fetchNext, h]

theorem fetchNext_not_exhausted (exec : Executor T K E) (it : QueryIterator T K)
    (h : it.state ≠ .exhausted) :
    fetchNext exec it = fetchWith exec it it.state.requestToken := by
  cases hs : it.state with
  | exhausted => exact absurd hs h
  | notStarted => simp [fetchNext, hs, IterState.requestToken]
  | hasMore t => simp [fetchNext, hs, IterState.requestToken]

theorem fetchWith_calls (exec : Executor T K E) (it : QueryIterator T K)
    (tok : Option K) : (fetchWith exec it tok).calls = 1 := by
  cases h : exec tok <;> simp [fetchWith, h]

theorem stepIterN_exhausted (exec : Executor T K E) (it : QueryIterator T K)
    (h : it.state = .exhausted) : ∀ k, stepIterN exec k it = it := by
  intro k
  induction k with
  | zero => rfl
  | succ n ihn =>
    have hstep : stepIter exec it = it := by
      simp [stepIter, fetchNext_exhausted exec it h]
    simp [stepIterN, hstep, ihn]

/-- C1: once the state is Exhausted, every subsequent fetchNext call (the
k-th for any k) returns an empty page with zero executor calls and leaves
the iterator unchanged; while not Exhausted, a fetchNext call issues exactly
one executor call — never zero, never more. -/
theorem fetchNext_exhausted_empty_and_single_roundtrip
    (exec : Executor T K E) (it : QueryIterator T K) :
    (it.state = .exhausted →
      ∀ k, stepIterN exec k it = it ∧
        fetchNext exec (stepIterN exec k it) = ⟨.ok emptyPage, it, 0⟩) ∧
    (it.state ≠ .exhausted → (fetchNext exec it).calls = 1) := by
  constructor
  · intro h k
    have hfix := stepIterN_exhausted exec it h k
    exact ⟨hfix, by rw [hfix, fetchNext_exhausted exec it h]⟩
  · intro h
    rw [fetchNext_not_exhausted exec it h]
    exact fetchWith_calls exec it it.state.requestToken

/-- A sample executor over item type Nat, token type Nat, error type String:
always succeeds with a one-item terminal page. -/
def sampleExec : Executor Nat Nat String :=
  fun _ => .ok ⟨[7], none, []⟩

/-- A sample exhausted iterator instance. -/
def exhaustedIter : QueryIterator Nat Nat :=
  ⟨.exhausted, none⟩

theorem fetchNext_exhausted_empty_and_single_roundtrip_witness :
    (stepIterN sampleExec 3 exhaustedIter = exhaustedIter ∧
      fetchNext sampleExec (stepIterN sampleExec 3 exhaustedIter) =
        ⟨.ok emptyPage, exhaustedIter, 0⟩) ∧
    (fetchNext sampleExec (freshIterator (T := Nat) (K := Nat))).calls = 1 :=
  ⟨(fetchNext_exhausted_empty_and_single_roundtrip sampleExec exhaustedIter).1 rfl 3,
   (fetchNext_exhausted_empty_and_single_roundtrip sampleExec freshIterator).2
     (by simp [freshIterator])⟩

/-- C2: an executor failure is propagated unchanged, with exactly one call
issued and the iterator left exactly as before the call (not advanced, not
marked exhausted); consequently a retry with any executor behaves exactly as
if the failed call had never happened — in particular it reissues the same
continuation token. -/
theorem fetchNext_error_propagates_state_unmodified
    (exec : Executor T K E) (it : QueryIterator T K) (e : E)
    (hne : it.state ≠ .exhausted)
    (hf : exec it.state.requestToken = .error e) :
    fetchNext exec it = ⟨.error e, it, 1⟩ ∧
    ∀ retryExec : Executor T K E,
      fetchNext retryExec (fetchNext exec it).iterator = fetchNext retryExec it := by
  have hfe : fetchNext exec it = ⟨.error e, it, 1⟩ := by
    rw [fetchNext_not_exhausted exec it hne]
    simp [fetchWith, hf]
  exact ⟨hfe, fun retryExec => by rw [hfe]⟩

/-- A sample always-failing executor. -/
def failingExec : Executor Nat Nat String :=
  fun _ => .error "boom"

/-- A sample mid-sequence iterator instance holding token 5. -/
def midIter : QueryIterator Nat Nat :=
  ⟨.hasMore 5, some ⟨[1, 2], some 5, []⟩⟩

theorem fetchNext_error_propagates_state_unmodified_witness :
    fetchNext failingExec midIter = ⟨.error "boom", midIter, 1⟩ ∧
    ∀ retryExec : Executor Nat Nat String,
      fetchNext retryExec (fetchNext failingExec midIter).iterator =
        fetchNext retryExec midIter :=
  fetchNext_error_propagates_state_unmodified failingExec midIter "boom"
    (by simp [midIter]) rfl

/-! ### A canonical well-behaved executor serving a finite list of pages

Tokens are page indices: the executor answers the absent token with page 0
and token `some i` with page `i`; page `i` carries token `i+1` unless it is
the last page. -/

/-- Page `i` of a finite page sequence `ps`: its items, and the continuation
token `i+1` when a further page exists. -/
def mkPage (ps : List (List T)) (i : Nat) : Page T Nat :=
  ⟨ps.getD i [], if i + 1 < ps.length then some (i + 1) else none, []⟩

/-- The executor serving the finite page sequence `ps`, never failing. -/
def pagesExec (ps : List (List T)) : Executor T Nat E :=
  fun tok => .ok (mkPage ps (tok.getD 0))

/-- The iterator state from which page `i` is the next page to fetch. -/
def stateAt (i : Nat) : IterState Nat :=
  if i = 0 then .notStarted else .hasMore i

theorem stateAt_not_exhausted (i : Nat) : stateAt i ≠ IterState.exhausted := by
  unfold stateAt
  by_cases h : i = 0 <;> simp [h]

theorem stateAt_requestToken_zero : (stateAt 0).requestToken = none := rfl

theorem stateAt_requestToken_succ (n : Nat) :
    (stateAt (n + 1)).requestToken = some (n + 1) := by
  simp [stateAt, IterState.requestToken]

theorem fetchNext_pagesExec (ps : List (List T)) (it : QueryIterator T Nat)
    (i : Nat) (h : it.state = stateAt i) :
    fetchNext (pagesExec (E := E) ps) it =
      ⟨.ok (mkPage ps i),
       ⟨tokenState (mkPage ps i).nextToken, some (mkPage ps i)⟩, 1⟩ := by
  cases i with
  | zero =>
    rw [stateAt] at h
    simp only [if_pos rfl] at h
    simp [fetchNext, h, fetchWith, pagesExec]
  | succ n =>
    rw [stateAt] at h
    simp only [Nat.succ_ne_zero, if_false] at h
    simp [fetchNext, h, fetchWith, pagesExec]

theorem toArrayAux_done (exec : Executor T K E) (it : QueryIterator T K)
    (h : it.state = .exhausted) (fuel : Nat) (acc : List T) :
    toArrayAux exec fuel it acc = ⟨.ok acc, it, 0⟩ := by
  cases fuel with
  | zero => rfl
  | succ m => simp [toArrayAux, IterState.isDone, h]

theorem toArrayAux_pagesExec (ps : List (List T)) :
    ∀ (fuel i : Nat) (it : QueryIterator T Nat) (acc : List T),
      it.state = stateAt i → ps.length - i < fuel →
      (toArrayAux (pagesExec (E := E) ps) fuel it acc).result =
          .ok (acc ++ (ps.drop i).flatten) ∧
      (toArrayAux (pagesExec (E := E) ps) fuel it acc).iterator.state =
          .exhausted := by
  intro fuel
  induction fuel with
  | zero => intro i it acc _ hf; omega
  | succ m ih =>
    intro i it acc h hf
    have hnd : it.state.isDone = false := by
      rw [h, stateAt]
      by_cases h0 : i = 0 <;> simp [h0, IterState.isDone]
    have hfn := fetchNext_pagesExec (E := E) ps it i h
    by_cases hlt : i + 1 < ps.length
    · have hi : i < ps.length := by omega
      have hnext : (mkPage ps i).nextToken = some (i + 1) := by
        simp [mkPage, hlt]
      have hitems : (mkPage ps i).items = ps.getD i [] := rfl
      have hstate :
          (⟨tokenState (mkPage ps i).nextToken, some (mkPage ps i)⟩ :
            QueryIterator T Nat).state = stateAt (i + 1) := by
        simp [hnext, tokenState, stateAt]
      obtain ⟨ih1, ih2⟩ := ih (i + 1)
        ⟨tokenState (mkPage ps i).nextToken, some (mkPage ps i)⟩
        (acc ++ (mkPage ps i).items) hstate (by omega)
      have hgetd : ps.getD i [] = ps[i] := by
        rw [List.getD_eq_getElem?_getD, List.getElem?_eq_getElem hi]
        rfl
      have hdrop : ps.drop i = ps[i] :: ps.drop (i + 1) :=
        List.drop_eq_getElem_cons hi
      have hflat : (ps.drop i).flatten = ps[i] ++ (ps.drop (i + 1)).flatten := by
        rw [hdrop, List.flatten_cons]
      constructor
      · simp only [toArrayAux, hnd, Bool.false_eq_true, if_false, hfn]
        rw [ih1, hitems, hgetd, hflat, List.append_assoc]
      · simp only [toArrayAux, hnd, Bool.false_eq_true, if_false, hfn]
        exact ih2
    · have hnext : (mkPage ps i).nextToken = none := by
        simp [mkPage, hlt]
      have hdone := toArrayAux_done (pagesExec (E := E) ps)
        ⟨tokenState (mkPage ps i).nextToken, some (mkPage ps i)⟩
        (by simp [hnext, tokenState]) m (acc ++ (mkPage ps i).items)
      have htail : (mkPage ps i).items = (ps.drop i).flatten := by
        show ps.getD i [] = (ps.drop i).flatten
        by_cases hi : i < ps.length
        · have hgetd : ps.getD i [] = ps[i] := by
            rw [List.getD_eq_getElem?_getD, List.getElem?_eq_getElem hi]
            rfl
          have hdrop : ps.drop i = ps[i] :: ps.drop (i + 1) :=
            List.drop_eq_getElem_cons hi
          have hnil : ps.drop (i + 1) = [] := List.drop_eq_nil_of_le (by omega)
          rw [hgetd, hdrop, hnil, List.flatten_cons]
          simp
        · have hgetd : ps.getD i [] = [] := by
            rw [List.getD_eq_getElem?_getD]
            rw [List.getElem?_eq_none (by omega : ps.length ≤ i)]
            rfl
          have hnil : ps.drop i = [] := List.drop_eq_nil_of_le (by omega)
          rw [hgetd, hnil]
          rfl
      constructor
      · simp only [toArrayAux, hnd, Bool.false_eq_true, if_false, hfn]
        rw [hdone]
        simp [htail]
      · simp only [toArrayAux, hnd, Bool.false_eq_true, if_false, hfn]
        rw [hdone]
        simp [hnext, tokenState]

/-- C3: draining an iterator over any finite page sequence returns exactly
the concatenation of all items of all pages, in page order, preserving
intra-page order. -/
theorem toArray_concats_pages_in_order (ps : List (List T))
    (fuel : Nat) (hfuel : ps.length < fuel) :
    (toArray (pagesExec (E := E) ps) fuel freshIterator).result =
      .ok ps.flatten := by
  have h := (toArrayAux_pagesExec (E := E) ps fuel 0 freshIterator []
    (by simp [freshIterator, stateAt]) (by omega)).1
  simpa [toArray] using h

theorem toArray_concats_pages_in_order_witness :
    (toArray (pagesExec (E := String) [[10, 11], [12, 13], [14]]) 4
      freshIterator).result = .ok [10, 11, 12, 13, 14] := by
  have h := toArray_concats_pages_in_order (E := String)
    [[10, 11], [12, 13], [14]] 4 (by decide)
  simpa using h

/-- C6: once an iterator has been fully consumed by toArray, a second
toArray on the same instance (whatever fuel it is given) returns an empty
sequence — not an error — with zero executor calls. -/
theorem toArray_non_restartable (ps : List (List T))
    (fuel : Nat) (hfuel : ps.length < fuel) :
    (toArray (pagesExec (E := E) ps) fuel freshIterator).iterator.state =
        .exhausted ∧
    ∀ fuel2 : Nat,
      toArray (pagesExec (E := E) ps) fuel2
          (toArray (pagesExec (E := E) ps) fuel freshIterator).iterator =
        ⟨.ok [],
         (toArray (pagesExec (E := E) ps) fuel freshIterator).iterator, 0⟩ := by
  have h := (toArrayAux_pagesExec (E := E) ps fuel 0 freshIterator []
    (by simp [freshIterator, stateAt]) (by omega)).2
  refine ⟨h, fun fuel2 => ?_⟩
  exact toArrayAux_done _ _ h fuel2 []

theorem toArray_non_restartable_witness :
    (toArray (pagesExec (E := String) [[10, 11], [12, 13], [14]]) 4
        freshIterator).iterator.state = IterState.exhausted ∧
    toArray (pagesExec (E := String) [[10, 11], [12, 13], [14]]) 4
        (toArray (pagesExec (E := String) [[10, 11], [12, 13], [14]]) 4
          freshIterator).iterator =
      ⟨.ok [],
       (toArray (pagesExec (E := String) [[10, 11], [12, 13], [14]]) 4
         freshIterator).iterator, 0⟩ := by
  have h := toArray_non_restartable (E := String)
    [[10, 11], [12, 13], [14]] 4 (by decide)
  exact ⟨h.1, h.2 4⟩

/-! ### An executor that fails at one fixed page index -/

/-- Like `pagesExec`, but every request for page `k` fails with error `e`. -/
def failExec (ps : List (List T)) (k : Nat) (e : E) : Executor T Nat E :=
  fun tok => if tok.getD 0 = k then .error e else .ok (mkPage ps (tok.getD 0))

theorem fetchNext_stateAt (exec : Executor T Nat E) (it : QueryIterator T Nat)
    (i : Nat) (h : it.state = stateAt i) :
    fetchNext exec it = fetchWith exec it (stateAt i).requestToken := by
  rw [fetchNext_not_exhausted exec it (by rw [h]; exact stateAt_not_exhausted i), h]

theorem stateAt_requestToken_getD (i : Nat) :
    ((stateAt i).requestToken).getD 0 = i := by
  cases i with
  | zero => rfl
  | succ n => simp [stateAt, IterState.requestToken]

theorem toArrayAux_failExec (ps : List (List T)) (k : Nat) (e : E)
    (hk : k < ps.length) :
    ∀ (fuel i : Nat) (it : QueryIterator T Nat) (acc : List T),
      it.state = stateAt i → i ≤ k → k - i < fuel →
      (toArrayAux (failExec ps k e) fuel it acc).result = .error e ∧
      (toArrayAux (failExec ps k e) fuel it acc).iterator.state = stateAt k ∧
      (toArrayAux (failExec ps k e) fuel it acc).calls = k - i + 1 := by
  intro fuel
  induction fuel with
  | zero => intro i it acc _ _ hf; omega
  | succ m ih =>
    intro i it acc h hik hf
    have hnd : it.state.isDone = false := by
      rw [h, stateAt]
      by_cases h0 : i = 0 <;> simp [h0, IterState.isDone]
    by_cases heq : i = k
    · have hfn : fetchNext (failExec ps k e) it = ⟨.error e, it, 1⟩ := by
        rw [fetchNext_stateAt (failExec ps k e) it i h]
        simp [fetchWith, failExec, stateAt_requestToken_getD, heq]
      refine ⟨?_, ?_, ?_⟩
      · simp [toArrayAux, hnd, hfn]
      · simp only [toArrayAux, hnd, Bool.false_eq_true, if_false, hfn]
        rw [h, heq]
      · simp only [toArrayAux, hnd, Bool.false_eq_true, if_false, hfn]
        omega
    · have hilt : i < k := by omega
      have hcall : failExec ps k e ((stateAt i).requestToken) =
          .ok (mkPage ps i) := by
        simp [failExec, stateAt_requestToken_getD, heq]
      have hfn : fetchNext (failExec ps k e) it =
          ⟨.ok (mkPage ps i),
           ⟨tokenState (mkPage ps i).nextToken, some (mkPage ps i)⟩, 1⟩ := by
        rw [fetchNext_stateAt (failExec ps k e) it i h]
        simp [fetchWith, hcall]
      have hi1 : i + 1 < ps.length := by omega
      have hnext : (mkPage ps i).nextToken = some (i + 1) := by
        simp [mkPage, hi1]
      have hstate :
          (⟨tokenState (mkPage ps i).nextToken, some (mkPage ps i)⟩ :
            QueryIterator T Nat).state = stateAt (i + 1) := by
        simp [hnext, tokenState, stateAt]
      obtain ⟨ih1, ih2, ih3⟩ := ih (i + 1)
        ⟨tokenState (mkPage ps i).nextToken, some (mkPage ps i)⟩
        (acc ++ (mkPage ps i).items) hstate (by omega) (by omega)
      refine ⟨?_, ?_, ?_⟩
      · simp only [toArrayAux, hnd, Bool.false_eq_true, if_false, hfn]
        exact ih1
      · simp only [toArrayAux, hnd, Bool.false_eq_true, if_false, hfn]
        exact ih2
      · simp only [toArrayAux, hnd, Bool.false_eq_true, if_false, hfn]
        rw [ih3]
        omega

/-- C4: if the executor fails at page `k` (after `k` successful pages), then
toArray returns exactly that error — no items, although `k` pages were
fetched before the failure — and issues exactly `k + 1` executor calls: the
drain stops at the first error. -/
theorem toArray_aborts_on_first_error (ps : List (List T)) (k : Nat) (e : E)
    (hk : k < ps.length) (fuel : Nat) (hfuel : k < fuel) :
    (toArray (failExec ps k e) fuel freshIterator).result = .error e ∧
    (toArray (failExec ps k e) fuel freshIterator).iterator.state = stateAt k ∧
    (toArray (failExec ps k e) fuel freshIterator).calls = k + 1 := by
  have h := toArrayAux_failExec ps k e hk fuel 0 freshIterator []
    (by simp [freshIterator, stateAt]) (by omega) (by omega)
  simpa [toArray] using h

theorem toArray_aborts_on_first_error_witness :
    (toArray (failExec [[10, 11], [12, 13], [14]] 1 "err") 4
        freshIterator).result = .error "err" ∧
    (toArray (failExec [[10, 11], [12, 13], [14]] 1 "err") 4
        freshIterator).iterator.state = stateAt 1 ∧
    (toArray (failExec [[10, 11], [12, 13], [14]] 1 "err") 4
        freshIterator).calls = 2 :=
  toArray_aborts_on_first_error [[10, 11], [12, 13], [14]] 1 "err"
    (by decide) 4 (by decide)

/-! ### Continuation-token bookkeeping -/

theorem tokenState_requestToken (o : Option K) :
    (tokenState o).requestToken = o := by
  cases o <;> rfl

/-- C5: the token handed to the executor is exactly the stored token value —
absent on a fresh iterator; fetchNext depends on the executor only through
its value at that single token (so precisely that token, and nothing else,
is passed); and after a successful fetch the stored request token is
byte-for-byte the nextToken the executor returned.  The whole model is
parametric in the token type `K`, so the iterator cannot inspect, parse or
mutate tokens. -/
theorem continuation_token_passed_verbatim :
    ((freshIterator (T := T) (K := K)).state.requestToken = none) ∧
    (∀ (exec exec2 : Executor T K E) (it : QueryIterator T K),
      it.state ≠ .exhausted →
      exec it.state.requestToken = exec2 it.state.requestToken →
      fetchNext exec it = fetchNext exec2 it) ∧
    (∀ (exec : Executor T K E) (it : QueryIterator T K) (page : Page T K),
      it.state ≠ .exhausted →
      exec it.state.requestToken = .ok page →
      ((fetchNext exec it).iterator).state.requestToken = page.nextToken) := by
  refine ⟨rfl, ?_, ?_⟩
  · intro exec exec2 it hne hagree
    rw [fetchNext_not_exhausted exec it hne, fetchNext_not_exhausted exec2 it hne]
    simp only [fetchWith, hagree]
  · intro exec it page hne hok
    rw [fetchNext_not_exhausted exec it hne]
    simp [fetchWith, hok, tokenState_requestToken]

theorem continuation_token_passed_verbatim_witness :
    ((freshIterator (T := Nat) (K := Nat)).state.requestToken = none) ∧
    ((fetchNext sampleExec midIter).iterator).state.requestToken = none :=
  ⟨(continuation_token_passed_verbatim (T := Nat) (K := Nat) (E := String)).1,
   (continuation_token_passed_verbatim (T := Nat) (K := Nat) (E := String)).2.2
     sampleExec midIter ⟨[7], none, []⟩ (by simp [midIter]) rfl⟩

/-! ### Independence of iterator instances -/

/-- One interleaving step on a pair of instances: `true` advances the first
instance with its executor, `false` the second with its own. -/
def stepPair (execA execB : Executor T K E)
    (p : QueryIterator T K × QueryIterator T K) (who : Bool) :
    QueryIterator T K × QueryIterator T K :=
  if who then (stepIter execA p.1, p.2) else (p.1, stepIter execB p.2)

/-- Run an interleaving schedule of fetchNext calls over two instances. -/
def runSchedule (execA execB : Executor T K E) :
    List Bool → QueryIterator T K × QueryIterator T K →
      QueryIterator T K × QueryIterator T K
  | [], p => p
  | who :: rest, p => runSchedule execA execB rest (stepPair execA execB p who)

/-- How many schedule entries advance the first instance. -/
def countTrue : List Bool → Nat
  | [] => 0
  | b :: rest => countTrue rest + (if b then 1 else 0)

/-- How many schedule entries advance the second instance. -/
def countFalse : List Bool → Nat
  | [] => 0
  | b :: rest => countFalse rest + (if b then 0 else 1)

/-- C7: under any interleaving of fetchNext calls between two iterator
instances, each instance ends up exactly where it would have ended up had
the other instance not existed: the pair run equals the two isolated runs.
There is no shared mutable state between instances. -/
theorem iterator_instances_independent (execA execB : Executor T K E)
    (sched : List Bool) (a b : QueryIterator T K) :
    runSchedule execA execB sched (a, b) =
      (stepIterN execA (countTrue sched) a,
       stepIterN execB (countFalse sched) b) := by
  induction sched generalizing a b with
  | nil => rfl
  | cons who rest ih =>
    cases who
    · simp [runSchedule, stepPair, countTrue, countFalse, ih, stepIterN]
    · simp [runSchedule, stepPair, countTrue, countFalse, ih, stepIterN]

/-! ### The current-page accessor -/

/-- C8: the current-page accessor yields a distinct, clearly labeled misuse
error on an instance on which fetchNext has never been called, and after a
successful fetch it yields exactly that page's items.  It is a pure
accessor — it produces no successor iterator, so it cannot advance state. -/
theorem currentPage_accessor_spec :
    (currentPage (freshIterator (T := T) (K := K)) = .misuseError) ∧
    (∀ (exec : Executor T K E) (it : QueryIterator T K) (page : Page T K),
      it.state ≠ .exhausted →
      exec it.state.requestToken = .ok page →
      currentPage (fetchNext exec it).iterator = .items page.items) := by
  refine ⟨rfl, ?_⟩
  intro exec it page hne hok
  rw [fetchNext_not_exhausted exec it hne]
  simp [fetchWith, hok, currentPage]

theorem currentPage_accessor_spec_witness :
    (currentPage (freshIterator (T := Nat) (K := Nat)) = .misuseError) ∧
    currentPage (fetchNext sampleExec (freshIterator (T := Nat) (K := Nat))).iterator =
      .items [7] :=
  ⟨(currentPage_accessor_spec (T := Nat) (K := Nat) (E := String)).1,
   (currentPage_accessor_spec (T := Nat) (K := Nat) (E := String)).2
     sampleExec freshIterator ⟨[7], none, []⟩ (by simp [freshIterator]) rfl⟩

/-! ### The `Users` resource operations, embedded from `src/unnamed/part_000`

The `Users` class methods `query`, `readAll`, `create` and `upsert` are
translated directly from the source.  Their collaborators (`Helper`,
`ClientContext`, the `Database` parent and the option/definition types) are
declared in other files of the repository that are not among the provided
sources, so they are kept abstract: opaque record types and capability
records of functions, quantified over in every theorem. -/

/-- Modelled from the spec: `SqlQuerySpec` (declared in the repository's
`queryExecutionContext`, not among the provided sources) — a query
configuration, opaque to the operations verified here. -/
structure SqlQuerySpec where
  query : String
  deriving Repr, DecidableEq

/-- Modelled from the spec: `FeedOptions` (declared in `request`, not among
the provided sources) — options for feed operations, opaque here. -/
structure FeedOptions where
  raw : List (String × String)
  deriving Repr, DecidableEq

/-- Modelled from the spec: `RequestOptions` (declared in `request`, not
among the provided sources) — options for item operations, opaque here. -/
structure RequestOptions where
  raw : List (String × String)
  deriving Repr, DecidableEq

/-- Modelled from the spec: `UserDefinition` (not among the provided
sources) — a user resource body carrying its id. -/
structure UserDefinition where
  id : String
  deriving Repr, DecidableEq

/-- Modelled from the spec: the parent `Database` (not among the provided
sources); the `Users` methods use only its `url`. -/
structure Database where
  url : String
  deriving Repr, DecidableEq

/-- A `User` reference as constructed by `Users.create`/`Users.upsert`:
`new User(this.database, response.result.id, ...)`. -/
structure User where
  database : Database
  id : String
  deriving Repr, DecidableEq

/-- The query-feed response body, from which `Users.query` projects the
`Users` field (`result => result.Users` in the source). -/
structure FeedBody where
  Users : List UserDefinition
  deriving Repr, DecidableEq

/-- A response from the client context's create/upsert: the stored resource
and the response headers. -/
structure ClientResponse where
  result : UserDefinition
  headers : List (String × String)
  deriving Repr, DecidableEq

/-- The `UserResponse` returned by `Users.create`/`Users.upsert`:
`{ body: response.result, headers: response.headers, ref, user: ref }`. -/
structure UserResponse where
  body : UserDefinition
  headers : List (String × String)
  ref : User
  user : User
  deriving Repr, DecidableEq

/-- A record of one request issued to the client context, used to state how
many network calls an operation performs. -/
inductive ClientCall where
  | createCall (body : UserDefinition) (path : String) (id : String)
  | upsertCall (body : UserDefinition) (path : String) (id : String)
  deriving Repr, DecidableEq

/-- Modelled from the spec: the `Helper` module (in `common`, not among the
provided sources).  `isResourceValid(body, err)` returns a boolean and
populates `err` on failure; this is modelled as `Option`: `some err` means
invalid with the populated error object, `none` means valid. -/
structure Helper where
  getPathFromLink : String → String → String
  getIdFromLink : String → String
  isResourceValid : UserDefinition → Option String

/-- Modelled from the spec: the `ClientContext` (not among the provided
sources) — the capability record through which all requests are issued.
`Feed` is the type returned by a feed query round trip. -/
structure ClientContext (Feed : Type) where
  queryFeed : String → String → String → (FeedBody → List UserDefinition) →
    Option SqlQuerySpec → Option FeedOptions → Feed
  create : UserDefinition → String → String → String →
    Option (List (String × String)) → Option RequestOptions → ClientResponse
  upsert : UserDefinition → String → String → String →
    Option (List (String × String)) → Option RequestOptions → ClientResponse

/-- The iterator value constructed by `Users.query`:
`new QueryIterator(this.clientContext, query, options, innerOptions => ...)`. -/
structure UsersQueryIterator (Feed : Type) where
  ctx : ClientContext Feed
  query : Option SqlQuerySpec
  options : Option FeedOptions
  fetchFunction : Option FeedOptions → Feed

/-- `Users.query` from the source: computes the feed path and id from the
database link and builds a QueryIterator whose fetch function issues
`queryFeed` for the `users` collection with the given query. -/
def Users.query (helper : Helper) (ctx : ClientContext Feed) (db : Database)
    (query : Option SqlQuerySpec) (options : Option FeedOptions) :
    UsersQueryIterator Feed :=
  let path := helper.getPathFromLink db.url "users"
  let id := helper.getIdFromLink db.url
  { ctx := ctx, query := query, options := options,
    fetchFunction := fun innerOptions =>
      ctx.queryFeed path "users" id (fun result => result.Users) query innerOptions }

/-- `Users.readAll` from the source: `return this.query(undefined, options)`. -/
def Users.readAll (helper : Helper) (ctx : ClientContext Feed) (db : Database)
    (options : Option FeedOptions) : UsersQueryIterator Feed :=
  Users.query helper ctx db none options

/-- `Users.create` from the source: validate the body (throwing the
populated error object on failure, before any request), then issue exactly
one `clientContext.create` and wrap the response.  The second component
lists the requests issued to the client context. -/
def Users.create (helper : Helper) (ctx : ClientContext Feed) (db : Database)
    (body : UserDefinition) (options : Option RequestOptions) :
    Except String UserResponse × List ClientCall :=
  match helper.isResourceValid body with
  | some err => (.error err, [])
  | none =>
    let path := helper.getPathFromLink db.url "users"
    let id := helper.getIdFromLink db.url
    let response := ctx.create body path "users" id none options
    let ref : User := ⟨db, response.result.id⟩
    (.ok ⟨response.result, response.headers, ref, ref⟩, [.createCall body path id])

/-- `Users.upsert` from the source: identical shape to `Users.create`, with
`clientContext.upsert` as the single request. -/
def Users.upsert (helper : Helper) (ctx : ClientContext Feed) (db : Database)
    (body : UserDefinition) (options : Option RequestOptions) :
    Except String UserResponse × List ClientCall :=
  match helper.isResourceValid body with
  | some err => (.error err, [])
  | none =>
    let path := helper.getPathFromLink db.url "users"
    let id := helper.getIdFromLink db.url
    let response := ctx.upsert body path "users" id none options
    let ref : User := ⟨db, response.result.id⟩
    (.ok ⟨response.result, response.headers, ref, ref⟩, [.upsertCall body path id])

/-- C9: `Users.readAll(options)` is exactly `Users.query(undefined, options)`:
the two return equal iterator values — same stored query, options and fetch
function, hence identical pages, order and continuation behavior. -/
theorem readAll_eq_query_undefined (helper : Helper) (ctx : ClientContext Feed)
    (db : Database) (options : Option FeedOptions) :
    Users.readAll helper ctx db options = Users.query helper ctx db none options ∧
    ∀ innerOptions,
      (Users.readAll helper ctx db options).fetchFunction innerOptions =
        (Users.query helper ctx db none options).fetchFunction innerOptions :=
  ⟨rfl, fun _ => rfl⟩

/-- C10: when `isResourceValid` rejects the body, both `Users.create` and
`Users.upsert` return exactly the populated validation error and issue zero
client-context requests; when it accepts, each issues exactly one request —
a create (resp. upsert) of that body at the users path. -/
theorem create_upsert_validation_gate (helper : Helper) (ctx : ClientContext Feed)
    (db : Database) (body : UserDefinition) (options : Option RequestOptions) :
    (∀ err, helper.isResourceValid body = some err →
      Users.create helper ctx db body options = (.error err, []) ∧
      Users.upsert helper ctx db body options = (.error err, [])) ∧
    (helper.isResourceValid body = none →
      (Users.create helper ctx db body options).2 =
        [ClientCall.createCall body (helper.getPathFromLink db.url "users")
          (helper.getIdFromLink db.url)] ∧
      (Users.upsert helper ctx db body options).2 =
        [ClientCall.upsertCall body (helper.getPathFromLink db.url "users")
          (helper.getIdFromLink db.url)]) := by
  constructor
  · intro err h
    constructor <;> simp [Users.create, Users.upsert, h]
  · intro h
    constructor <;> simp [Users.create, Users.upsert, h]

/-- A sample helper that rejects exactly the empty id. -/
def sampleHelper : Helper :=
  { getPathFromLink := fun link res => link ++ "/" ++ res,
    getIdFromLink := fun link => link,
    isResourceValid := fun body =>
      if body.id = "" then some "invalid resource" else none }

/-- A sample client context echoing the request body back. -/
def sampleCtx : ClientContext Unit :=
  { queryFeed := fun _ _ _ _ _ _ => (),
    create := fun body _ _ _ _ _ => ⟨body, []⟩,
    upsert := fun body _ _ _ _ _ => ⟨body, []⟩ }

/-- A sample parent database. -/
def sampleDb : Database :=
  ⟨"dbs/db1"⟩

theorem create_upsert_validation_gate_witness :
    (Users.create sampleHelper sampleCtx sampleDb ⟨""⟩ none =
        (.error "invalid resource", []) ∧
      Users.upsert sampleHelper sampleCtx sampleDb ⟨""⟩ none =
        (.error "invalid resource", [])) ∧
    ((Users.create sampleHelper sampleCtx sampleDb ⟨"u1"⟩ none).2 =
        [ClientCall.createCall ⟨"u1"⟩ "dbs/db1/users" "dbs/db1"] ∧
      (Users.upsert sampleHelper sampleCtx sampleDb ⟨"u1"⟩ none).2 =
        [ClientCall.upsertCall ⟨"u1"⟩ "dbs/db1/users" "dbs/db1"]) :=
  ⟨(create_upsert_validation_gate sampleHelper sampleCtx sampleDb ⟨""⟩ none).1
      "invalid resource" (by simp [sampleHelper]),
   (create_upsert_validation_gate sampleHelper sampleCtx sampleDb ⟨"u1"⟩ none).2
      (by simp [sampleHelper])⟩

end AzureSDK
